import Mathlib

/-!
Verification of the grading-orchestration core of the Autograding repository.

The embedding below translates the provider component of src/App.tsx
(addFiles, removeFile, updateFileStatus, updateSettings, startBatchGrading,
reGradeFile), the data model of src/types.ts and the model table of
src/constants.ts into Lean.  Asynchronous collaborators (the grading call
gradeHomework and the content-extraction services readFileAsBase64 and
extractTextFromFile, whose sources are outside src/) are modelled as
function parameters; the grading call returns Except String GradingResult,
mirroring a promise that resolves with a result or rejects with a
human-readable message.  React state updates are modelled as pure
functions on an explicit application state.
-/

/-- Status enumeration from src/types.ts (FileStatus). -/
inductive FileStatus where
  | pending
  | processing
  | completed
  | error
deriving DecidableEq, Repr

/-- Provider enumeration from src/types.ts (ModelProvider). -/
inductive ModelProvider where
  | gemini
  | custom
deriving DecidableEq, Repr

/-- GradingDetailItem from src/types.ts. -/
structure GradingDetailItem where
  name : String
  score : Option String
  feedback : Option String
deriving DecidableEq, Repr

/-- GradingResult from src/types.ts. -/
structure GradingResult where
  score : String
  maxScore : String
  summary : String
  strengths : List String
  weaknesses : List String
  suggestions : String
  details : Option (List GradingDetailItem)
deriving DecidableEq, Repr

/-- HomeworkFile from src/types.ts. -/
structure HomeworkFile where
  id : String
  name : String
  type : String
  size : Nat
  base64Data : Option String
  textContent : Option String
  status : FileStatus
  result : Option GradingResult
  errorMessage : Option String
deriving DecidableEq, Repr

/-- AppSettings from src/types.ts; customBaseUrl is optional there. -/
structure AppSettings where
  apiKey : String
  modelProvider : ModelProvider
  customBaseUrl : Option String
  modelName : String
deriving DecidableEq, Repr

/-- A raw input to addFiles (the browser File object: name, mime type,
size and raw content). -/
structure InputFile where
  name : String
  type : String
  size : Nat
  content : String
deriving DecidableEq, Repr

/-- Modelled from the spec: the content-extraction collaborators
readFileAsBase64 and extractTextFromFile (src/services/fileService.ts is
not under src/) and the id generator Math.random().toString(36).substr(2, 9).
Per the collaborator contract of spec section 6 the extraction functions
never throw and signal failure by returning an absent value; the id
generator is an external stream of strings consumed one draw per created
item. -/
structure GradingEnv where
  gen : Nat → String
  toB64 : InputFile → Option String
  toText : InputFile → Option String

/-- One homework item as constructed in the addFiles loop of src/App.tsx
(lines 32-42): the k-th draw of the id generator, metadata copied from the
input, extracted contents, status Pending, no result or error. -/
def mkFile (env : GradingEnv) (k : Nat) (f : InputFile) : HomeworkFile :=
  { id := env.gen k
    name := f.name
    type := f.type
    size := f.size
    base64Data := env.toB64 f
    textContent := env.toText f
    status := FileStatus.pending
    result := none
    errorMessage := none }

/-- The hidden-file filter of src/App.tsx line 30:
f.name.startsWith(".").  The prefix is the single character dot, so the
test is equivalent to the first character of the name being a dot,
which is the executable form used here. -/
def isHidden (f : InputFile) : Bool :=
  match f.name.data with
  | [] => false
  | c :: _ => decide (c = '.')

/-- The sequential construction loop of addFiles: one item per valid
input, consuming consecutive id-generator draws. -/
def buildFiles (env : GradingEnv) (start : Nat) : List InputFile → List HomeworkFile
  | [] => []
  | f :: rest => mkFile env start f :: buildFiles env (start + 1) rest

/-- addFiles from src/App.tsx lines 28-45: filter out hidden files, build
one item per remaining input in order, append to the existing collection.
Returns the new collection and the next unconsumed generator index. -/
def addFiles (env : GradingEnv) (start : Nat) (newFiles : List InputFile)
    (files : List HomeworkFile) : List HomeworkFile × Nat :=
  let validFiles := newFiles.filter (fun f => !(isHidden f))
  (files ++ buildFiles env start validFiles, start + validFiles.length)

/-- removeFile from src/App.tsx lines 47-49: keep every file whose id
differs. -/
def removeFile (id : String) (files : List HomeworkFile) : List HomeworkFile :=
  files.filter (fun f => decide (f.id ≠ id))

/-- updateFileStatus from src/App.tsx lines 51-58: map over the
collection, replacing status, result and errorMessage of the file with
the given id in one update. -/
def updateFileStatus (id : String) (status : FileStatus)
    (result : Option GradingResult) (error : Option String)
    (files : List HomeworkFile) : List HomeworkFile :=
  files.map (fun f =>
    if f.id = id then
      { f with status := status, result := result, errorMessage := error }
    else f)

/-- The eligibility test of the batch loop, src/App.tsx line 66:
f.status === PENDING || f.status === ERROR. -/
def needsGrading (f : HomeworkFile) : Bool :=
  decide (f.status = FileStatus.pending ∨ f.status = FileStatus.error)

/-- The body of the batch loop for one file (src/App.tsx lines 68-77):
set Processing, invoke the grader on the snapshot file, then set
Completed with the result or Error with the failure message.  The
awaited 500 ms delay has no state effect and is omitted. -/
def processOne (grade : HomeworkFile → Except String GradingResult)
    (file : HomeworkFile) (files : List HomeworkFile) : List HomeworkFile :=
  let files1 := updateFileStatus file.id FileStatus.processing none none files
  match grade file with
  | Except.ok result => updateFileStatus file.id FileStatus.completed (some result) none files1
  | Except.error m => updateFileStatus file.id FileStatus.error none (some m) files1

/-- startBatchGrading from src/App.tsx lines 64-79, restricted to its
store effect: the eligible snapshot is computed once from the call-time
collection, then each snapshot item is driven through processOne
sequentially. -/
def startBatchGrading (grade : HomeworkFile → Except String GradingResult)
    (files : List HomeworkFile) : List HomeworkFile :=
  let filesToGrade := files.filter needsGrading
  filesToGrade.foldl (fun acc file => processOne grade file acc) files

/-- reGradeFile from src/App.tsx lines 81-92: look the file up by id; if
absent do nothing, otherwise set Processing, invoke the grader on the
looked-up snapshot, and resolve to Completed or Error. -/
def reGradeFile (grade : HomeworkFile → Except String GradingResult)
    (id : String) (files : List HomeworkFile) : List HomeworkFile :=
  match files.find? (fun f => decide (f.id = id)) with
  | none => files
  | some file =>
    let files1 := updateFileStatus id FileStatus.processing none none files
    match grade file with
    | Except.ok result => updateFileStatus id FileStatus.completed (some result) none files1
    | Except.error m => updateFileStatus id FileStatus.error none (some m) files1

/-- The net effect of the two updateFileStatus calls that processOne and
reGradeFile perform on the targeted file: Completed with the result on
success, Error with the message on failure. -/
def resolveFile (outcome : Except String GradingResult) (f : HomeworkFile) : HomeworkFile :=
  match outcome with
  | Except.ok r => { f with status := FileStatus.completed, result := some r, errorMessage := none }
  | Except.error m => { f with status := FileStatus.error, result := none, errorMessage := some m }

/-- The per-element effect of one batch-loop iteration on the whole
collection: files with the processed id are resolved, others are left
alone. -/
def batchStep (grade : HomeworkFile → Except String GradingResult)
    (file x : HomeworkFile) : HomeworkFile :=
  if x.id = file.id then resolveFile (grade file) x else x

/-- One entry of the AVAILABLE_MODELS table of src/constants.ts. -/
structure ModelInfo where
  value : String
  label : String
  provider : ModelProvider
  defaultBaseUrl : Option String
deriving DecidableEq, Repr

/-- AVAILABLE_MODELS from src/constants.ts. -/
def AVAILABLE_MODELS : List ModelInfo :=
  [ { value := "gemini-2.5-flash"
      label := "Gemini 2.5 Flash (Google-速度快&视觉强)"
      provider := ModelProvider.gemini
      defaultBaseUrl := none }
  , { value := "gemini-2.5-pro-preview"
      label := "Gemini 2.5 Pro (Google-推理强)"
      provider := ModelProvider.gemini
      defaultBaseUrl := none }
  , { value := "qwen-plus"
      label := "Qwen Plus (通义千问-文本增强版)"
      provider := ModelProvider.custom
      defaultBaseUrl := some "https://dashscope.aliyuncs.com/compatible-mode/v1" }
  , { value := "qwen-vl-max"
      label := "Qwen VL Max (通义千问-视觉超强版)"
      provider := ModelProvider.custom
      defaultBaseUrl := some "https://dashscope.aliyuncs.com/compatible-mode/v1" }
  , { value := "deepseek-ai/DeepSeek-V3"
      label := "DeepSeek V3 (深度求索-文本)"
      provider := ModelProvider.custom
      defaultBaseUrl := some "https://api.siliconflow.cn/v1" }
  , { value := "Qwen/Qwen2.5-VL-72B-Instruct"
      label := "Qwen2.5 VL (SiliconFlow-视觉版)"
      provider := ModelProvider.custom
      defaultBaseUrl := some "https://api.siliconflow.cn/v1" } ]

/-- DEFAULT_SETTINGS from src/constants.ts; the apiKey comes from the
process environment (empty when absent). -/
def DEFAULT_SETTINGS (envApiKey : String) : AppSettings :=
  { apiKey := envApiKey
    modelProvider := ModelProvider.gemini
    customBaseUrl := some "https://api.siliconflow.cn/v1"
    modelName := "gemini-2.5-flash" }

/-- A Partial AppSettings patch as accepted by updateSettings: each field
is either absent (key not in the object) or present with a value.  For
customBaseUrl a present key may still carry an undefined value, hence the
nested Option. -/
structure SettingsPatch where
  apiKey : Option String := none
  modelProvider : Option ModelProvider := none
  customBaseUrl : Option (Option String) := none
  modelName : Option String := none

/-- updateSettings from src/App.tsx lines 60-62: a shallow merge of the
patch over the previous settings. -/
def updateSettings (patch : SettingsPatch) (s : AppSettings) : AppSettings :=
  { apiKey := patch.apiKey.getD s.apiKey
    modelProvider := patch.modelProvider.getD s.modelProvider
    customBaseUrl := patch.customBaseUrl.getD s.customBaseUrl
    modelName := patch.modelName.getD s.modelName }

/-- JavaScript a || b on optional strings: the left operand wins unless
it is undefined or the empty string (falsy). -/
def jsOrStr (a b : Option String) : Option String :=
  match a with
  | some u => if u = "" then b else some u
  | none => b

/-- handleProviderChange from src/App.tsx lines 506-518 (SettingsView):
if the new provider has models, patch provider, modelName (first model of
that provider) and customBaseUrl together; otherwise patch only the
provider. -/
def handleProviderChange (provider : ModelProvider) (s : AppSettings) : AppSettings :=
  match AVAILABLE_MODELS.filter (fun m => decide (m.provider = provider)) with
  | [] => updateSettings { modelProvider := some provider } s
  | firstModel :: _ =>
    updateSettings
      { modelProvider := some provider
        modelName := some firstModel.value
        customBaseUrl := some (jsOrStr firstModel.defaultBaseUrl s.customBaseUrl) } s

/-- Whether a model name belongs to the given provider in
AVAILABLE_MODELS. -/
def isValidModel (p : ModelProvider) (name : String) : Bool :=
  AVAILABLE_MODELS.any (fun m => decide (m.provider = p) && decide (m.value = name))

/-- The provider state of src/App.tsx lines 23-26 that the claims
concern: the file collection, the global busy flag, and the number of
id-generator draws consumed so far in the session. -/
structure AppState where
  files : List HomeworkFile
  isGrading : Bool
  nextId : Nat
deriving DecidableEq, Repr

/-- The session starts with an empty collection and the busy flag off. -/
def initialState : AppState :=
  { files := [], isGrading := false, nextId := 0 }

/-- The operations the program performs on the provider state.  Batch and
regrade events carry the behaviour of the opaque grading collaborator for
that run as a function from the snapshot file to a result or a failure
message. -/
inductive Event where
  | add (inputs : List InputFile)
  | remove (id : String)
  | batch (grade : HomeworkFile → Except String GradingResult)
  | regrade (id : String) (grade : HomeworkFile → Except String GradingResult)

/-- Whether an event is a batch run (the only operation that touches the
global isGrading flag). -/
def Event.isBatch : Event → Bool
  | Event.batch _ => true
  | _ => false

/-- The end-to-end state effect of one event. -/
def applyEvent (env : GradingEnv) : Event → AppState → AppState
  | Event.add inputs, s =>
    let p := addFiles env s.nextId inputs s.files
    { s with files := p.1, nextId := p.2 }
  | Event.remove id, s => { s with files := removeFile id s.files }
  | Event.batch grade, s =>
    { s with files := startBatchGrading grade s.files, isGrading := false }
  | Event.regrade id grade, s => { s with files := reGradeFile grade id s.files }

/-- The collection after each single store mutation inside the batch
loop: for every snapshot item, first the Processing update, then the
terminal update. -/
def batchMidFiles (grade : HomeworkFile → Except String GradingResult) :
    List HomeworkFile → List HomeworkFile → List (List HomeworkFile)
  | [], _ => []
  | f :: rest, files =>
    let f1 := updateFileStatus f.id FileStatus.processing none none files
    let f2 := processOne grade f files
    f1 :: f2 :: batchMidFiles grade rest f2

/-- The sequence of states a batch run passes through: the state right
after setIsGrading(true), the state after every store mutation of the
loop, and the final state after setIsGrading(false). -/
def batchTrace (grade : HomeworkFile → Except String GradingResult)
    (s : AppState) : List AppState :=
  ({ s with isGrading := true } ::
    (batchMidFiles grade (s.files.filter needsGrading) s.files).map
      (fun l => { s with files := l, isGrading := true }))
  ++ [{ s with files := startBatchGrading grade s.files, isGrading := false }]

/-- The sequence of states an event passes through, one entry per state
mutation.  A regrade on a missing id mutates nothing. -/
def eventStates (env : GradingEnv) : Event → AppState → List AppState
  | Event.add inputs, s => [applyEvent env (Event.add inputs) s]
  | Event.remove id, s => [applyEvent env (Event.remove id) s]
  | Event.batch grade, s => batchTrace grade s
  | Event.regrade id grade, s =>
    match s.files.find? (fun f => decide (f.id = id)) with
    | none => []
    | some _ =>
      [{ s with files := updateFileStatus id FileStatus.processing none none s.files },
       { s with files := reGradeFile grade id s.files }]

/-- Run a sequence of events to the final state. -/
def runEvents (env : GradingEnv) (events : List Event) (s : AppState) : AppState :=
  events.foldl (fun acc e => applyEvent env e acc) s

/-- Every state visited after every single store mutation across a
sequence of events. -/
def runTrace (env : GradingEnv) : List Event → AppState → List AppState
  | [], _ => []
  | e :: rest, s => eventStates env e s ++ runTrace env rest (applyEvent env e s)

/-- The batch loop of startBatchGrading interleaved with store appends
performed by concurrent addFiles completions: before the k-th snapshot
item is processed, the k-th block of externally added files (if any) is
appended to the collection. -/
def batchWithAdds (grade : HomeworkFile → Except String GradingResult) :
    List HomeworkFile → List (List HomeworkFile) → List HomeworkFile → List HomeworkFile
  | [], _, files => files
  | f :: rest, adds, files =>
    batchWithAdds grade rest adds.tail (processOne grade f (files ++ adds.headD []))

/-- addFiles with fallible extraction collaborators, exactly as the
source awaits them (src/App.tsx lines 39-40 carry no try/catch): a
rejecting await aborts the whole call, so no items are inserted. -/
def buildFilesE (toB64E toTextE : InputFile → Except String (Option String))
    (gen : Nat → String) (start : Nat) :
    List InputFile → Except String (List HomeworkFile)
  | [] => Except.ok []
  | f :: rest =>
    match toB64E f with
    | Except.error e => Except.error e
    | Except.ok b =>
      match toTextE f with
      | Except.error e => Except.error e
      | Except.ok t =>
        match buildFilesE toB64E toTextE gen (start + 1) rest with
        | Except.error e => Except.error e
        | Except.ok items =>
          Except.ok
            ({ id := gen start
               name := f.name
               type := f.type
               size := f.size
               base64Data := b
               textContent := t
               status := FileStatus.pending
               result := none
               errorMessage := none } :: items)

/-- addFiles over fallible extraction collaborators: the hidden-file
filter, then the construction loop; an extraction fault propagates out
and the collection is left unchanged (setFiles at line 44 is never
reached). -/
def addFilesE (toB64E toTextE : InputFile → Except String (Option String))
    (gen : Nat → String) (start : Nat) (newFiles : List InputFile)
    (files : List HomeworkFile) : Except String (List HomeworkFile × Nat) :=
  let validFiles := newFiles.filter (fun f => !(isHidden f))
  match buildFilesE toB64E toTextE gen start validFiles with
  | Except.error e => Except.error e
  | Except.ok processed => Except.ok (files ++ processed, start + validFiles.length)

/-- The result/error exclusivity discipline for one item (spec section
3): a result only in Completed, an error message only in Error, never
both. -/
def exclusiveOK (f : HomeworkFile) : Prop :=
  (f.result ≠ none → f.status = FileStatus.completed) ∧
  (f.errorMessage ≠ none → f.status = FileStatus.error) ∧
  ¬(f.result ≠ none ∧ f.errorMessage ≠ none)

instance (f : HomeworkFile) : Decidable (exclusiveOK f) := by
  unfold exclusiveOK; infer_instance

/-- The exclusivity discipline for a whole collection. -/
def storeOK (files : List HomeworkFile) : Prop :=
  ∀ f ∈ files, exclusiveOK f

/-- The per-session id discipline: ids are pairwise distinct and every
id is a generator draw of index below the consumed count. -/
def idsOK (gen : Nat → String) (s : AppState) : Prop :=
  (s.files.map (fun f => f.id)).Nodup ∧
  ∀ f ∈ s.files, ∃ k, k < s.nextId ∧ f.id = gen k

/-- The expected items appended by a sequence of addFiles calls,
with the generator index threaded through the calls. -/
def buildCalls (env : GradingEnv) (start : Nat) : List (List InputFile) → List HomeworkFile
  | [] => []
  | c :: rest =>
    let valid := c.filter (fun f => !(isHidden f))
    buildFiles env start valid ++ buildCalls env (start + valid.length) rest

/-- A sequence of addFiles calls threaded through the store. -/
def runAdds (env : GradingEnv) (calls : List (List InputFile))
    (p : List HomeworkFile × Nat) : List HomeworkFile × Nat :=
  calls.foldl (fun acc inputs => addFiles env acc.2 inputs acc.1) p

/-! Concrete data used to exercise the definitions. -/

/-- A sample successful grading result. -/
def sampleResult : GradingResult :=
  { score := "90"
    maxScore := "100"
    summary := "good work"
    strengths := ["clear"]
    weaknesses := []
    suggestions := "keep going"
    details := none }

/-- A bare homework item with the given id, name and status. -/
def plainFile (id name : String) (st : FileStatus) : HomeworkFile :=
  { id := id
    name := name
    type := "text/plain"
    size := 1
    base64Data := none
    textContent := none
    status := st
    result := none
    errorMessage := none }

/-- A concrete raw input. -/
def inputA : InputFile :=
  { name := "a.txt", type := "text/plain", size := 1, content := "hello" }

/-- A second concrete raw input. -/
def inputB : InputFile :=
  { name := "b.txt", type := "text/plain", size := 1, content := "world" }

/-- Scenario D batch: three pending items. -/
def filesD : List HomeworkFile :=
  [plainFile "a" "a.txt" FileStatus.pending,
   plainFile "b" "b.txt" FileStatus.pending,
   plainFile "c" "c.txt" FileStatus.pending]

/-- Scenario D grader: fails on item 2, succeeds on items 1 and 3. -/
def gradeD (f : HomeworkFile) : Except String GradingResult :=
  if f.id = "b" then Except.error "rate limited" else Except.ok sampleResult

/-- A store with one pending and one completed item. -/
def filesPC : List HomeworkFile :=
  [plainFile "p" "p.txt" FileStatus.pending,
   plainFile "c" "c.txt" FileStatus.completed]

/-- A grader that always succeeds. -/
def gradeOk (_ : HomeworkFile) : Except String GradingResult :=
  Except.ok sampleResult

/-- An extraction environment whose collaborators return no content and
whose id generator always draws the same string. -/
def dupEnv : GradingEnv :=
  { gen := fun _ => "x", toB64 := fun _ => none, toText := fun _ => none }

/-- An id generator that never repeats: n is encoded in the length of
the string. -/
def aGen (n : Nat) : String :=
  String.mk (List.replicate n 'a')

/-- An extraction environment with the injective generator. -/
def injEnv : GradingEnv :=
  { gen := aGen, toB64 := fun _ => none, toText := fun _ => none }

/-- An extraction collaborator that raises. -/
def badB64 (_ : InputFile) : Except String (Option String) :=
  Except.error "boom"

/-- An extraction collaborator that resolves with no content. -/
def okText (_ : InputFile) : Except String (Option String) :=
  Except.ok none

/-! Helper lemmas about the store mutators and the batch loop. -/

lemma resolveFile_id (outcome : Except String GradingResult) (f : HomeworkFile) :
    (resolveFile outcome f).id = f.id := by
  cases outcome <;> rfl

lemma batchStep_id (grade : HomeworkFile → Except String GradingResult)
    (file x : HomeworkFile) : (batchStep grade file x).id = x.id := by
  unfold batchStep
  by_cases h : x.id = file.id
  · rw [if_pos h, resolveFile_id]
  · rw [if_neg h]

lemma updateFileStatus_ids (id : String) (st : FileStatus)
    (r : Option GradingResult) (e : Option String) (l : List HomeworkFile) :
    (updateFileStatus id st r e l).map (fun f => f.id) = l.map (fun f => f.id) := by
  unfold updateFileStatus
  rw [List.map_map]
  apply List.map_congr_left
  intro f _
  by_cases h : f.id = id <;> simp [h]

lemma processOne_eq_map (grade : HomeworkFile → Except String GradingResult)
    (file : HomeworkFile) (l : List HomeworkFile) :
    processOne grade file l = l.map (batchStep grade file) := by
  cases hg : grade file with
  | ok r =>
    simp only [processOne, hg, updateFileStatus, List.map_map]
    apply List.map_congr_left
    intro f _
    by_cases h : f.id = file.id
    · simp [Function.comp, h, batchStep, resolveFile, hg]
    · simp [Function.comp, h, batchStep, resolveFile, hg]
  | error m =>
    simp only [processOne, hg, updateFileStatus, List.map_map]
    apply List.map_congr_left
    intro f _
    by_cases h : f.id = file.id
    · simp [Function.comp, h, batchStep, resolveFile, hg]
    · simp [Function.comp, h, batchStep, resolveFile, hg]

lemma processOne_ids (grade : HomeworkFile → Except String GradingResult)
    (file : HomeworkFile) (l : List HomeworkFile) :
    (processOne grade file l).map (fun f => f.id) = l.map (fun f => f.id) := by
  rw [processOne_eq_map, List.map_map]
  apply List.map_congr_left
  intro f _
  exact batchStep_id grade file f

lemma foldl_map_outer (g : HomeworkFile → HomeworkFile → HomeworkFile) :
    ∀ (todo : List HomeworkFile) (l : List HomeworkFile),
      todo.foldl (fun acc b => acc.map (g b)) l
        = l.map (fun x => todo.foldl (fun y b => g b y) x)
  | [], l => by simp
  | b :: rest, l => by
    simp only [List.foldl_cons]
    rw [foldl_map_outer g rest (l.map (g b)), List.map_map]
    rfl

lemma id_inj_of_nodup {l : List HomeworkFile}
    (h : (l.map (fun f => f.id)).Nodup) {x y : HomeworkFile}
    (hx : x ∈ l) (hy : y ∈ l) (hxy : x.id = y.id) : x = y :=
  List.inj_on_of_nodup_map h hx hy hxy

lemma innerFold_of_no_match (grade : HomeworkFile → Except String GradingResult)
    (todo : List HomeworkFile) (x : HomeworkFile)
    (h : ∀ f ∈ todo, x.id ≠ f.id) :
    todo.foldl (fun y f => batchStep grade f y) x = x := by
  induction todo with
  | nil => rfl
  | cons f rest ih =>
    rw [List.foldl_cons]
    have hx : batchStep grade f x = x := by
      unfold batchStep
      rw [if_neg (h f (List.mem_cons_self f rest))]
    rw [hx]
    exact ih (fun f2 hf2 => h f2 (List.mem_cons_of_mem f hf2))

lemma innerFold_of_mem (grade : HomeworkFile → Except String GradingResult)
    (todo : List HomeworkFile) (x : HomeworkFile)
    (hnd : (todo.map (fun f => f.id)).Nodup) (hx : x ∈ todo) :
    todo.foldl (fun y f => batchStep grade f y) x = resolveFile (grade x) x := by
  induction todo with
  | nil => cases hx
  | cons f rest ih =>
    simp only [List.map_cons, List.nodup_cons] at hnd
    rw [List.foldl_cons]
    rcases List.mem_cons.mp hx with hxf | hxr
    · subst hxf
      have h1 : batchStep grade x x = resolveFile (grade x) x := by
        unfold batchStep; rw [if_pos rfl]
      rw [h1]
      apply innerFold_of_no_match
      intro f2 hf2
      rw [resolveFile_id]
      intro he
      exact hnd.1 (he ▸ List.mem_map_of_mem (fun f => f.id) hf2)
    · have hne : x.id ≠ f.id := by
        intro he
        exact hnd.1 (he ▸ List.mem_map_of_mem (fun f => f.id) hxr)
      have h1 : batchStep grade f x = x := by
        unfold batchStep; rw [if_neg hne]
      rw [h1]
      exact ih hnd.2 hxr

lemma batch_eq_map (grade : HomeworkFile → Except String GradingResult)
    (files : List HomeworkFile) (hnd : (files.map (fun f => f.id)).Nodup) :
    startBatchGrading grade files
      = files.map (fun x => if needsGrading x then resolveFile (grade x) x else x) := by
  unfold startBatchGrading
  have hstep : (fun (acc : List HomeworkFile) (file : HomeworkFile) => processOne grade file acc)
      = fun acc file => acc.map (batchStep grade file) := by
    funext acc file
    exact processOne_eq_map grade file acc
  rw [hstep, foldl_map_outer]
  apply List.map_congr_left
  intro x hx
  by_cases he : needsGrading x
  · rw [if_pos he]
    apply innerFold_of_mem
    · exact List.Nodup.sublist (List.Sublist.map _ (List.filter_sublist files)) hnd
    · exact List.mem_filter.mpr ⟨hx, he⟩
  · rw [if_neg he]
    apply innerFold_of_no_match
    intro f hf heq
    have hff := List.mem_filter.mp hf
    have hxf : x = f := id_inj_of_nodup hnd hx hff.1 heq
    rw [hxf] at he
    exact he hff.2

lemma filter_id_map (i : String) (g : HomeworkFile → HomeworkFile)
    (hid : ∀ x, (g x).id = x.id) (hfix : ∀ x, x.id = i → g x = x) :
    ∀ l : List HomeworkFile,
      (l.map g).filter (fun f => decide (f.id = i))
        = l.filter (fun f => decide (f.id = i))
  | [] => rfl
  | x :: rest => by
    simp only [List.map_cons, List.filter_cons]
    by_cases h : x.id = i
    · rw [hfix x h]
      simp only [h, decide_True]
      rw [filter_id_map i g hid hfix rest]
    · have h2 : ((g x).id = i) = False := by
        rw [hid x]; simp [h]
      simp only [h2, h, decide_False]
      exact filter_id_map i g hid hfix rest

lemma update_filter_ne (i j : String) (hij : i ≠ j) (st : FileStatus)
    (r : Option GradingResult) (e : Option String) (l : List HomeworkFile) :
    (updateFileStatus j st r e l).filter (fun f => decide (f.id = i))
      = l.filter (fun f => decide (f.id = i)) := by
  unfold updateFileStatus
  apply filter_id_map
  · intro x
    by_cases h : x.id = j <;> simp [h]
  · intro x hx
    rw [if_neg (fun h => hij (hx.symm.trans h))]

lemma processOne_filter_ne (i : String) (grade : HomeworkFile → Except String GradingResult)
    (file : HomeworkFile) (hif : i ≠ file.id) (l : List HomeworkFile) :
    (processOne grade file l).filter (fun f => decide (f.id = i))
      = l.filter (fun f => decide (f.id = i)) := by
  rw [processOne_eq_map]
  apply filter_id_map
  · exact batchStep_id grade file
  · intro x hx
    unfold batchStep
    rw [if_neg (fun h => hif (hx.symm.trans h))]

lemma batchWithAdds_filter (grade : HomeworkFile → Except String GradingResult) (i : String) :
    ∀ (todo : List HomeworkFile) (adds : List (List HomeworkFile)) (files : List HomeworkFile),
      (∀ f ∈ todo, f.id ≠ i) →
      (batchWithAdds grade todo adds files).filter (fun f => decide (f.id = i))
        = (files ++ (adds.take todo.length).flatten).filter (fun f => decide (f.id = i))
  | [], adds, files, _ => by
    simp [batchWithAdds]
  | f :: rest, adds, files, h => by
    rw [batchWithAdds]
    rw [batchWithAdds_filter grade i rest adds.tail
      (processOne grade f (files ++ adds.headD []))
      (fun g hg => h g (List.mem_cons_of_mem f hg))]
    rw [List.filter_append,
      processOne_filter_ne i grade f (fun he => (h f (List.mem_cons_self f rest)) he.symm),
      ← List.filter_append]
    cases adds with
    | nil => simp
    | cons a as => simp [List.filter_append, List.append_assoc]

lemma map_fix_self {α : Type} {l : List α} {g : α → α} (h : ∀ a ∈ l, g a = a) :
    l.map g = l := by
  rw [List.map_congr_left (g := id) (fun a ha => h a ha), List.map_id]

lemma find?_of_nodup (l : List HomeworkFile) (x : HomeworkFile)
    (hnd : (l.map (fun f => f.id)).Nodup) (hx : x ∈ l) :
    l.find? (fun f => decide (f.id = x.id)) = some x := by
  induction l with
  | nil => cases hx
  | cons f rest ih =>
    simp only [List.map_cons, List.nodup_cons] at hnd
    rcases List.mem_cons.mp hx with hxf | hxr
    · subst hxf
      exact List.find?_cons_of_pos rest (by simp)
    · have hne : f.id ≠ x.id := by
        intro he
        exact hnd.1 (he ▸ List.mem_map_of_mem (fun f => f.id) hxr)
      rw [List.find?_cons_of_neg rest (by simp [hne])]
      exact ih hnd.2 hxr

lemma reGradeFile_eq_processOne (grade : HomeworkFile → Except String GradingResult)
    (l : List HomeworkFile) (x : HomeworkFile)
    (hfind : l.find? (fun f => decide (f.id = x.id)) = some x) :
    reGradeFile grade x.id l = processOne grade x l := by
  unfold reGradeFile processOne
  rw [hfind]

/-! Preservation of the result/error exclusivity discipline. -/

lemma storeOK_update {l : List HomeworkFile} (h : storeOK l) (id : String)
    (st : FileStatus) (r : Option GradingResult) (e : Option String)
    (hr : r ≠ none → st = FileStatus.completed)
    (he : e ≠ none → st = FileStatus.error) :
    storeOK (updateFileStatus id st r e l) := by
  intro f hf
  rcases List.mem_map.mp hf with ⟨x, hx, hfx⟩
  subst hfx
  by_cases hxi : x.id = id
  · rw [if_pos hxi]
    refine ⟨fun hrr => hr hrr, fun hee => he hee, ?_⟩
    rintro ⟨hrr, hee⟩
    have h1 := hr hrr
    have h2 := he hee
    rw [h1] at h2
    cases h2
  · rw [if_neg hxi]
    exact h x hx

lemma storeOK_processOne {l : List HomeworkFile} (h : storeOK l)
    (grade : HomeworkFile → Except String GradingResult) (file : HomeworkFile) :
    storeOK (processOne grade file l) := by
  unfold processOne
  cases grade file with
  | ok r =>
    apply storeOK_update
    · apply storeOK_update h
      · intro hc; cases hc rfl
      · intro hc; cases hc rfl
    · intro _; rfl
    · intro hc; cases hc rfl
  | error m =>
    apply storeOK_update
    · apply storeOK_update h
      · intro hc; cases hc rfl
      · intro hc; cases hc rfl
    · intro hc; cases hc rfl
    · intro _; rfl

lemma storeOK_append {l1 l2 : List HomeworkFile} (h1 : storeOK l1) (h2 : storeOK l2) :
    storeOK (l1 ++ l2) := by
  intro f hf
  rcases List.mem_append.mp hf with hl | hr
  · exact h1 f hl
  · exact h2 f hr

lemma storeOK_filter {l : List HomeworkFile} (h : storeOK l) (p : HomeworkFile → Bool) :
    storeOK (l.filter p) :=
  fun f hf => h f (List.mem_filter.mp hf).1

lemma buildFiles_props (env : GradingEnv) :
    ∀ (start : Nat) (inputs : List InputFile), ∀ f ∈ buildFiles env start inputs,
      f.status = FileStatus.pending ∧ f.result = none ∧ f.errorMessage = none
  | _, [], _, hf => by cases hf
  | start, i :: rest, f, hf => by
    rcases List.mem_cons.mp hf with hfi | hfr
    · subst hfi
      exact ⟨rfl, rfl, rfl⟩
    · exact buildFiles_props env (start + 1) rest f hfr

lemma storeOK_buildFiles (env : GradingEnv) (start : Nat) (inputs : List InputFile) :
    storeOK (buildFiles env start inputs) := by
  intro f hf
  rcases buildFiles_props env start inputs f hf with ⟨h1, h2, h3⟩
  refine ⟨fun hc => absurd h2 hc, fun hc => absurd h3 hc, ?_⟩
  rintro ⟨hc, _⟩
  exact hc h2

lemma storeOK_startBatch {l : List HomeworkFile} (h : storeOK l)
    (grade : HomeworkFile → Except String GradingResult) :
    storeOK (startBatchGrading grade l) := by
  unfold startBatchGrading
  generalize l.filter needsGrading = todo
  induction todo generalizing l with
  | nil => exact h
  | cons f rest ih =>
    rw [List.foldl_cons]
    exact ih (storeOK_processOne h grade f)

lemma storeOK_reGrade {l : List HomeworkFile} (h : storeOK l)
    (grade : HomeworkFile → Except String GradingResult) (id : String) :
    storeOK (reGradeFile grade id l) := by
  unfold reGradeFile
  cases l.find? (fun f => decide (f.id = id)) with
  | none => exact h
  | some file =>
    dsimp only
    cases grade file with
    | ok r =>
      apply storeOK_update
      · apply storeOK_update h
        · intro hc; cases hc rfl
        · intro hc; cases hc rfl
      · intro _; rfl
      · intro hc; cases hc rfl
    | error m =>
      apply storeOK_update
      · apply storeOK_update h
        · intro hc; cases hc rfl
        · intro hc; cases hc rfl
      · intro hc; cases hc rfl
      · intro _; rfl

lemma storeOK_applyEvent (env : GradingEnv) (e : Event) (s : AppState)
    (h : storeOK s.files) : storeOK (applyEvent env e s).files := by
  cases e with
  | add inputs =>
    exact storeOK_append h (storeOK_buildFiles env s.nextId _)
  | remove id => exact storeOK_filter h _
  | batch grade => exact storeOK_startBatch h grade
  | regrade id grade => exact storeOK_reGrade h grade id

lemma storeOK_batchMidFiles (grade : HomeworkFile → Except String GradingResult) :
    ∀ (todo : List HomeworkFile) (files : List HomeworkFile), storeOK files →
      ∀ t ∈ batchMidFiles grade todo files, storeOK t
  | [], _, _, t, ht => by cases ht
  | f :: rest, files, h, t, ht => by
    rw [batchMidFiles] at ht
    rcases List.mem_cons.mp ht with h1 | ht2
    · subst h1
      apply storeOK_update h
      · intro hc; cases hc rfl
      · intro hc; cases hc rfl
    · rcases List.mem_cons.mp ht2 with h2 | ht3
      · subst h2
        exact storeOK_processOne h grade f
      · exact storeOK_batchMidFiles grade rest (processOne grade f files)
          (storeOK_processOne h grade f) t ht3

lemma storeOK_eventStates (env : GradingEnv) (e : Event) (s : AppState)
    (h : storeOK s.files) : ∀ t ∈ eventStates env e s, storeOK t.files := by
  cases e with
  | add inputs =>
    intro t ht
    rcases List.mem_cons.mp ht with h1 | h2
    · subst h1
      exact storeOK_applyEvent env (Event.add inputs) s h
    · cases h2
  | remove id =>
    intro t ht
    rcases List.mem_cons.mp ht with h1 | h2
    · subst h1
      exact storeOK_applyEvent env (Event.remove id) s h
    · cases h2
  | batch grade =>
    intro t ht
    unfold eventStates batchTrace at ht
    rcases List.mem_append.mp ht with hl | hr
    · rcases List.mem_cons.mp hl with h1 | h2
      · subst h1; exact h
      · rcases List.mem_map.mp h2 with ⟨l, hl2, hteq⟩
        subst hteq
        exact storeOK_batchMidFiles grade _ s.files h l hl2
    · rcases List.mem_cons.mp hr with h1 | h2
      · subst h1
        exact storeOK_startBatch h grade
      · cases h2
  | regrade id grade =>
    intro t ht
    unfold eventStates at ht
    dsimp only at ht
    cases hfind : s.files.find? (fun f => decide (f.id = id)) with
    | none => rw [hfind] at ht; cases ht
    | some file =>
      rw [hfind] at ht
      dsimp only at ht
      rcases List.mem_cons.mp ht with h1 | h2
      · subst h1
        apply storeOK_update h
        · intro hc; cases hc rfl
        · intro hc; cases hc rfl
      · rcases List.mem_cons.mp h2 with h3 | h4
        · subst h3
          exact storeOK_reGrade h grade id
        · cases h4

lemma storeOK_runTrace (env : GradingEnv) :
    ∀ (events : List Event) (s : AppState), storeOK s.files →
      ∀ t ∈ runTrace env events s, storeOK t.files
  | [], _, _, t, ht => by cases ht
  | e :: rest, s, h, t, ht => by
    rw [runTrace] at ht
    rcases List.mem_append.mp ht with hl | hr
    · exact storeOK_eventStates env e s h t hl
    · exact storeOK_runTrace env rest (applyEvent env e s)
        (storeOK_applyEvent env e s h) t hr

/-! Preservation of the per-session id discipline. -/

lemma startBatchGrading_ids (grade : HomeworkFile → Except String GradingResult)
    (files : List HomeworkFile) :
    (startBatchGrading grade files).map (fun f => f.id) = files.map (fun f => f.id) := by
  unfold startBatchGrading
  generalize files.filter needsGrading = todo
  induction todo generalizing files with
  | nil => rfl
  | cons f rest ih =>
    rw [List.foldl_cons]
    rw [ih (processOne grade f files), processOne_ids]

lemma reGradeFile_ids (grade : HomeworkFile → Except String GradingResult)
    (id : String) (files : List HomeworkFile) :
    (reGradeFile grade id files).map (fun f => f.id) = files.map (fun f => f.id) := by
  unfold reGradeFile
  cases files.find? (fun f => decide (f.id = id)) with
  | none => rfl
  | some file =>
    dsimp only
    cases grade file with
    | ok r => rw [updateFileStatus_ids, updateFileStatus_ids]
    | error m => rw [updateFileStatus_ids, updateFileStatus_ids]

lemma batchMidFiles_ids (grade : HomeworkFile → Except String GradingResult) :
    ∀ (todo : List HomeworkFile) (files : List HomeworkFile),
      ∀ t ∈ batchMidFiles grade todo files,
        t.map (fun f => f.id) = files.map (fun f => f.id)
  | [], _, t, ht => by cases ht
  | f :: rest, files, t, ht => by
    rw [batchMidFiles] at ht
    rcases List.mem_cons.mp ht with h1 | ht2
    · subst h1
      exact updateFileStatus_ids _ _ _ _ _
    · rcases List.mem_cons.mp ht2 with h2 | ht3
      · subst h2
        exact processOne_ids grade f files
      · rw [batchMidFiles_ids grade rest (processOne grade f files) t ht3,
          processOne_ids]

lemma buildFiles_idx (env : GradingEnv) :
    ∀ (start : Nat) (inputs : List InputFile), ∀ f ∈ buildFiles env start inputs,
      ∃ k, start ≤ k ∧ k < start + inputs.length ∧ f.id = env.gen k
  | _, [], _, hf => by cases hf
  | start, i :: rest, f, hf => by
    rcases List.mem_cons.mp hf with hfi | hfr
    · subst hfi
      exact ⟨start, Nat.le_refl start, by simp, rfl⟩
    · rcases buildFiles_idx env (start + 1) rest f hfr with ⟨k, hk1, hk2, hk3⟩
      refine ⟨k, Nat.le_of_succ_le hk1, ?_, hk3⟩
      simp only [List.length_cons]
      omega

lemma buildFiles_ids_nodup (env : GradingEnv) (hGen : Function.Injective env.gen) :
    ∀ (start : Nat) (inputs : List InputFile),
      ((buildFiles env start inputs).map (fun f => f.id)).Nodup
  | _, [] => List.nodup_nil
  | start, i :: rest => by
    simp only [buildFiles, List.map_cons, List.nodup_cons]
    constructor
    · intro hmem
      rcases List.mem_map.mp hmem with ⟨f, hf, hfid⟩
      rcases buildFiles_idx env (start + 1) rest f hf with ⟨k, hk1, _, hk3⟩
      rw [hk3] at hfid
      have : k = start := hGen hfid
      omega
    · exact buildFiles_ids_nodup env hGen (start + 1) rest

lemma idsOK_applyEvent (env : GradingEnv) (hGen : Function.Injective env.gen)
    (e : Event) (s : AppState) (h : idsOK env.gen s) :
    idsOK env.gen (applyEvent env e s) := by
  rcases h with ⟨hnd, hidx⟩
  cases e with
  | add inputs =>
    constructor
    · show ((s.files ++ buildFiles env s.nextId _).map (fun f => f.id)).Nodup
      rw [List.map_append]
      rw [List.nodup_append]
      refine ⟨hnd, buildFiles_ids_nodup env hGen _ _, ?_⟩
      intro a ha hb
      rcases List.mem_map.mp ha with ⟨f, hf, hfa⟩
      rcases List.mem_map.mp hb with ⟨g, hg, hga⟩
      rcases hidx f hf with ⟨k, hk1, hk2⟩
      rcases buildFiles_idx env s.nextId _ g hg with ⟨k2, hk21, _, hk23⟩
      have : env.gen k = env.gen k2 := by
        rw [← hk2, ← hk23, hfa, hga]
      have hkk : k = k2 := hGen this
      omega
    · intro f hf
      rcases List.mem_append.mp hf with hl | hr
      · rcases hidx f hl with ⟨k, hk1, hk2⟩
        refine ⟨k, ?_, hk2⟩
        show k < s.nextId + _
        omega
      · rcases buildFiles_idx env s.nextId _ f hr with ⟨k, hk1, hk2, hk3⟩
        exact ⟨k, hk2, hk3⟩
  | remove id =>
    constructor
    · exact List.Nodup.sublist (List.Sublist.map _ (List.filter_sublist s.files)) hnd
    · intro f hf
      exact hidx f (List.mem_filter.mp hf).1
  | batch grade =>
    constructor
    · show ((startBatchGrading grade s.files).map (fun f => f.id)).Nodup
      rw [startBatchGrading_ids]
      exact hnd
    · intro f hf
      have hfid : f.id ∈ (startBatchGrading grade s.files).map (fun f => f.id) :=
        List.mem_map_of_mem _ hf
      rw [startBatchGrading_ids] at hfid
      rcases List.mem_map.mp hfid with ⟨g, hg, hga⟩
      rcases hidx g hg with ⟨k, hk1, hk2⟩
      exact ⟨k, hk1, by rw [← hga, hk2]⟩
  | regrade id grade =>
    constructor
    · show ((reGradeFile grade id s.files).map (fun f => f.id)).Nodup
      rw [reGradeFile_ids]
      exact hnd
    · intro f hf
      have hfid : f.id ∈ (reGradeFile grade id s.files).map (fun f => f.id) :=
        List.mem_map_of_mem _ hf
      rw [reGradeFile_ids] at hfid
      rcases List.mem_map.mp hfid with ⟨g, hg, hga⟩
      rcases hidx g hg with ⟨k, hk1, hk2⟩
      exact ⟨k, hk1, by rw [← hga, hk2]⟩

lemma nodup_of_ids_eq {l1 l2 : List HomeworkFile}
    (he : l1.map (fun f => f.id) = l2.map (fun f => f.id))
    (h : (l2.map (fun f => f.id)).Nodup) : (l1.map (fun f => f.id)).Nodup := by
  rw [he]; exact h

lemma idsOK_eventStates (env : GradingEnv) (hGen : Function.Injective env.gen)
    (e : Event) (s : AppState) (h : idsOK env.gen s) :
    ∀ t ∈ eventStates env e s, (t.files.map (fun f => f.id)).Nodup := by
  cases e with
  | add inputs =>
    intro t ht
    rcases List.mem_cons.mp ht with h1 | h2
    · subst h1
      exact (idsOK_applyEvent env hGen (Event.add inputs) s h).1
    · cases h2
  | remove id =>
    intro t ht
    rcases List.mem_cons.mp ht with h1 | h2
    · subst h1
      exact (idsOK_applyEvent env hGen (Event.remove id) s h).1
    · cases h2
  | batch grade =>
    intro t ht
    unfold eventStates batchTrace at ht
    rcases List.mem_append.mp ht with hl | hr
    · rcases List.mem_cons.mp hl with h1 | h2
      · subst h1; exact h.1
      · rcases List.mem_map.mp h2 with ⟨l, hl2, hteq⟩
        subst hteq
        exact nodup_of_ids_eq (batchMidFiles_ids grade _ s.files l hl2) h.1
    · rcases List.mem_cons.mp hr with h1 | h2
      · subst h1
        exact nodup_of_ids_eq (startBatchGrading_ids grade s.files) h.1
      · cases h2
  | regrade id grade =>
    intro t ht
    unfold eventStates at ht
    dsimp only at ht
    cases hfind : s.files.find? (fun f => decide (f.id = id)) with
    | none => rw [hfind] at ht; cases ht
    | some file =>
      rw [hfind] at ht
      dsimp only at ht
      rcases List.mem_cons.mp ht with h1 | h2
      · subst h1
        exact nodup_of_ids_eq (updateFileStatus_ids _ _ _ _ _) h.1
      · rcases List.mem_cons.mp h2 with h3 | h4
        · subst h3
          exact nodup_of_ids_eq (reGradeFile_ids grade id s.files) h.1
        · cases h4

lemma idsOK_runTrace (env : GradingEnv) (hGen : Function.Injective env.gen) :
    ∀ (events : List Event) (s : AppState), idsOK env.gen s →
      (∀ t ∈ runTrace env events s, (t.files.map (fun f => f.id)).Nodup) ∧
        idsOK env.gen (runEvents env events s)
  | [], s, h => ⟨(fun t ht => nomatch ht), h⟩
  | e :: rest, s, h => by
    have hnextOK := idsOK_applyEvent env hGen e s h
    rcases idsOK_runTrace env hGen rest (applyEvent env e s) hnextOK with ⟨h1, h2⟩
    constructor
    · intro t ht
      rw [runTrace] at ht
      rcases List.mem_append.mp ht with hl | hr
      · exact idsOK_eventStates env hGen e s h t hl
      · exact h1 t hr
    · exact h2

/-! Lemmas about sequences of addFiles calls and fallible extraction. -/

lemma buildFiles_length (env : GradingEnv) :
    ∀ (start : Nat) (inputs : List InputFile),
      (buildFiles env start inputs).length = inputs.length
  | _, [] => rfl
  | start, _ :: rest => by
    simp only [buildFiles, List.length_cons, buildFiles_length env (start + 1) rest]

lemma buildFiles_names (env : GradingEnv) :
    ∀ (start : Nat) (inputs : List InputFile),
      (buildFiles env start inputs).map (fun f => f.name) = inputs.map (fun f => f.name)
  | _, [] => rfl
  | start, i :: rest => by
    simp only [buildFiles, List.map_cons, buildFiles_names env (start + 1) rest]
    rfl

lemma runAdds_eq (env : GradingEnv) :
    ∀ (calls : List (List InputFile)) (fs0 : List HomeworkFile) (n0 : Nat),
      runAdds env calls (fs0, n0)
        = (fs0 ++ buildCalls env n0 calls,
           n0 + (calls.map (fun c => (c.filter (fun f => !(isHidden f))).length)).sum)
  | [], fs0, n0 => by simp [runAdds, buildCalls]
  | c :: rest, fs0, n0 => by
    show runAdds env rest (addFiles env n0 c fs0) = _
    rw [addFiles]
    rw [runAdds_eq env rest _ _]
    simp only [buildCalls, List.map_cons, List.sum_cons, List.append_assoc]
    rw [Nat.add_assoc]

lemma buildCalls_props (env : GradingEnv) :
    ∀ (start : Nat) (calls : List (List InputFile)), ∀ f ∈ buildCalls env start calls,
      f.status = FileStatus.pending ∧ f.result = none ∧ f.errorMessage = none
  | _, [], _, hf => by cases hf
  | start, c :: rest, f, hf => by
    rw [buildCalls] at hf
    rcases List.mem_append.mp hf with hl | hr
    · exact buildFiles_props env start _ f hl
    · exact buildCalls_props env _ rest f hr

lemma buildCalls_length (env : GradingEnv) :
    ∀ (start : Nat) (calls : List (List InputFile)),
      (buildCalls env start calls).length
        = (calls.map (fun c => (c.filter (fun f => !(isHidden f))).length)).sum
  | _, [] => rfl
  | start, c :: rest => by
    rw [buildCalls]
    simp only [List.length_append, List.map_cons, List.sum_cons,
      buildFiles_length, buildCalls_length env _ rest]

lemma buildCalls_names (env : GradingEnv) :
    ∀ (start : Nat) (calls : List (List InputFile)),
      (buildCalls env start calls).map (fun f => f.name)
        = (calls.map (fun c =>
            (c.filter (fun f => !(isHidden f))).map (fun f => f.name))).flatten
  | _, [] => rfl
  | start, c :: rest => by
    rw [buildCalls]
    simp only [List.map_append, List.map_cons, List.flatten_cons,
      buildFiles_names, buildCalls_names env _ rest]

lemma buildFilesE_ok (env : GradingEnv) :
    ∀ (start : Nat) (inputs : List InputFile),
      buildFilesE (fun f => Except.ok (env.toB64 f)) (fun f => Except.ok (env.toText f))
          env.gen start inputs
        = Except.ok (buildFiles env start inputs)
  | _, [] => rfl
  | start, i :: rest => by
    show (match buildFilesE (fun f => Except.ok (env.toB64 f))
        (fun f => Except.ok (env.toText f)) env.gen (start + 1) rest with
      | Except.error e => Except.error e
      | Except.ok items => Except.ok (_ :: items)) = _
    rw [buildFilesE_ok env (start + 1) rest]
    rfl

lemma addFilesE_ok (env : GradingEnv) (start : Nat) (newFiles : List InputFile)
    (files : List HomeworkFile) :
    addFilesE (fun f => Except.ok (env.toB64 f)) (fun f => Except.ok (env.toText f))
        env.gen start newFiles files
      = Except.ok (addFiles env start newFiles files) := by
  unfold addFilesE addFiles
  dsimp only
  rw [buildFilesE_ok]

lemma filter_map_congr (i : String) (g1 g2 : HomeworkFile → HomeworkFile)
    (hid1 : ∀ x, (g1 x).id = x.id) (hid2 : ∀ x, (g2 x).id = x.id) :
    ∀ l : List HomeworkFile, (∀ x ∈ l, x.id = i → g1 x = g2 x) →
      (l.map g1).filter (fun f => decide (f.id = i))
        = (l.map g2).filter (fun f => decide (f.id = i))
  | [], _ => rfl
  | x :: rest, h => by
    simp only [List.map_cons, List.filter_cons]
    by_cases hx : x.id = i
    · rw [h x (List.mem_cons_self x rest) hx]
      rw [filter_map_congr i g1 g2 hid1 hid2 rest
        (fun z hz => h z (List.mem_cons_of_mem x hz))]
    · have e1 : (decide ((g1 x).id = i)) = false := by simp [hid1 x, hx]
      have e2 : (decide ((g2 x).id = i)) = false := by simp [hid2 x, hx]
      rw [e1, e2]
      exact filter_map_congr i g1 g2 hid1 hid2 rest
        (fun z hz => h z (List.mem_cons_of_mem x hz))

lemma aGen_injective : Function.Injective aGen := by
  intro a b h
  have h2 := congrArg (fun s : String => s.data.length) h
  simpa [aGen] using h2

/-! The claims. -/

/-- C1: Batch failure isolation.  During a startBatch run over a
collection with pairwise-distinct ids, if the grading collaborator fails
for an eligible item x with message msg, then x alone ends in Error
carrying that message, every other item ends in the state determined by
its own grading outcome (eligible items are resolved by their own
outcome, ineligible items are untouched), and changing the outcome of x
alone never changes any other item, so the loop continues past the
failure. -/
theorem batch_failure_isolation
    (files : List HomeworkFile) (grade : HomeworkFile → Except String GradingResult)
    (x : HomeworkFile) (msg : String)
    (hnd : (files.map (fun f => f.id)).Nodup)
    (hx : x ∈ files)
    (he : x.status = FileStatus.pending ∨ x.status = FileStatus.error)
    (hf : grade x = Except.error msg) :
    startBatchGrading grade files
      = files.map (fun y =>
          if y.id = x.id then
            { y with status := FileStatus.error, result := none, errorMessage := some msg }
          else if needsGrading y then resolveFile (grade y) y else y)
    ∧ ∀ grade2 : HomeworkFile → Except String GradingResult,
        (∀ y ∈ files, y.id ≠ x.id → grade2 y = grade y) →
        ∀ i : String, i ≠ x.id →
          (startBatchGrading grade2 files).filter (fun f => decide (f.id = i))
            = (startBatchGrading grade files).filter (fun f => decide (f.id = i)) := by
  constructor
  · rw [batch_eq_map grade files hnd]
    apply List.map_congr_left
    intro y hy
    by_cases hyx : y.id = x.id
    · have hyx2 : y = x := id_inj_of_nodup hnd hy hx hyx
      subst hyx2
      have hng : needsGrading y = true := decide_eq_true he
      rw [if_pos hng, if_pos rfl, hf]
      rfl
    · rw [if_neg hyx]
  · intro grade2 hagree i hi
    rw [batch_eq_map grade2 files hnd, batch_eq_map grade files hnd]
    apply filter_map_congr
    · intro z
      by_cases hz : needsGrading z
      · rw [if_pos hz, resolveFile_id]
      · rw [if_neg hz]
    · intro z
      by_cases hz : needsGrading z
      · rw [if_pos hz, resolveFile_id]
      · rw [if_neg hz]
    · intro z hz hzi
      have hzx : z.id ≠ x.id := by
        rw [hzi]; exact hi
      rw [hagree z hz hzx]

/-- Witness for C1, Scenario D: a batch of three pending items where
item 2 fails and items 1 and 3 succeed ends with statuses Completed,
Error, Completed, and item 2 carries the failure message. -/
theorem batch_failure_isolation_scenarioD :
    ((filesD.map (fun f => f.id)).Nodup
      ∧ plainFile "b" "b.txt" FileStatus.pending ∈ filesD
      ∧ gradeD (plainFile "b" "b.txt" FileStatus.pending) = Except.error "rate limited")
    ∧ (startBatchGrading gradeD filesD).map (fun f => f.status)
        = [FileStatus.completed, FileStatus.error, FileStatus.completed]
    ∧ (startBatchGrading gradeD filesD).map (fun f => f.errorMessage)
        = [none, some "rate limited", none] := by
  have h := batch_failure_isolation filesD gradeD
    (plainFile "b" "b.txt" FileStatus.pending) "rate limited"
    (by decide) (by decide) (Or.inl rfl) rfl
  refine ⟨⟨by decide, by decide, rfl⟩, ?_, ?_⟩
  · rw [h.1]; decide
  · rw [h.1]; decide

/-- C2: startBatch fixes its eligible set once, at call time, as the
items then Pending or Error.  Running the batch loop with arbitrary
blocks of items appended to the store between iterations, every id
outside the call-time eligible snapshot is untouched: its items (both
the call-time ones and the ones added during the run) survive with
exactly their previous field values; items Completed or Processing at
call time are outside the snapshot; and every mid-run addition with an
id outside the snapshot is present unchanged in the final collection. -/
theorem startBatch_snapshot_fixed
    (grade : HomeworkFile → Except String GradingResult)
    (files : List HomeworkFile) (adds : List (List HomeworkFile))
    (hnd : (files.map (fun f => f.id)).Nodup)
    (hlen : adds.length = (files.filter needsGrading).length) :
    (∀ i : String, i ∉ (files.filter needsGrading).map (fun f => f.id) →
        (batchWithAdds grade (files.filter needsGrading) adds files).filter
            (fun f => decide (f.id = i))
          = (files ++ adds.flatten).filter (fun f => decide (f.id = i)))
    ∧ (∀ x ∈ files,
        (x.status = FileStatus.completed ∨ x.status = FileStatus.processing) →
        x.id ∉ (files.filter needsGrading).map (fun f => f.id))
    ∧ (∀ l ∈ adds, ∀ f ∈ l,
        f.id ∉ (files.filter needsGrading).map (fun f => f.id) →
        f ∈ batchWithAdds grade (files.filter needsGrading) adds files) := by
  have hmain : ∀ i : String, (∀ g ∈ files.filter needsGrading, g.id ≠ i) →
      (batchWithAdds grade (files.filter needsGrading) adds files).filter
          (fun f => decide (f.id = i))
        = (files ++ adds.flatten).filter (fun f => decide (f.id = i)) := by
    intro i hforall
    have heq := batchWithAdds_filter grade i (files.filter needsGrading) adds files hforall
    rw [← hlen, List.take_length] at heq
    exact heq
  refine ⟨?_, ?_, ?_⟩
  · intro i hi
    apply hmain
    intro g hg hgid
    exact hi (hgid ▸ List.mem_map_of_mem (fun f => f.id) hg)
  · intro x hx hst hmem
    rcases List.mem_map.mp hmem with ⟨g, hg, hgid⟩
    have hgf := List.mem_filter.mp hg
    have hgx : g = x := id_inj_of_nodup hnd hgf.1 hx hgid
    have hngx : needsGrading x = true := hgx ▸ hgf.2
    have hprop := of_decide_eq_true hngx
    rcases hst with h1 | h1 <;> rcases hprop with h2 | h2 <;> rw [h1] at h2 <;> cases h2
  · intro l hl f hf hnmem
    have heq := hmain f.id (by
      intro g hg hgid
      exact hnmem (hgid ▸ List.mem_map_of_mem (fun f => f.id) hg))
    have hfmem : f ∈ (files ++ adds.flatten).filter (fun g => decide (g.id = f.id)) := by
      apply List.mem_filter.mpr
      exact ⟨List.mem_append.mpr (Or.inr (List.mem_flatten.mpr ⟨l, hl, hf⟩)), by simp⟩
    rw [← heq] at hfmem
    exact List.mem_of_mem_filter hfmem

/-- Witness for C2: a store with one pending and one completed item, and
one mid-run addition.  The completed item and the added item keep their
exact values; the added item is present in the final collection. -/
theorem startBatch_snapshot_fixed_example :
    ((filesPC.map (fun f => f.id)).Nodup
      ∧ ([[plainFile "n" "n.txt" FileStatus.pending]] : List (List HomeworkFile)).length
          = (filesPC.filter needsGrading).length)
    ∧ (batchWithAdds gradeOk (filesPC.filter needsGrading)
          [[plainFile "n" "n.txt" FileStatus.pending]] filesPC).filter
        (fun f => decide (f.id = "c"))
        = (filesPC ++ [[plainFile "n" "n.txt" FileStatus.pending]].flatten).filter
            (fun f => decide (f.id = "c"))
    ∧ plainFile "n" "n.txt" FileStatus.pending
        ∈ batchWithAdds gradeOk (filesPC.filter needsGrading)
            [[plainFile "n" "n.txt" FileStatus.pending]] filesPC := by
  have h := startBatch_snapshot_fixed gradeOk filesPC
    [[plainFile "n" "n.txt" FileStatus.pending]] (by decide) (by decide)
  refine ⟨⟨by decide, by decide⟩, ?_, ?_⟩
  · exact h.1 "c" (by decide)
  · exact h.2.2 [plainFile "n" "n.txt" FileStatus.pending] (by decide)
      (plainFile "n" "n.txt" FileStatus.pending) (by decide) (by decide)

/-- C3: Result/error exclusivity.  After every store mutation performed
by any sequence of program operations starting from the empty session
state, every item has its result set only in status Completed, its error
message set only in status Error, and never both; and setStatus replaces
status, result and errorMessage together as one update, so setting
Processing clears both result and errorMessage. -/
theorem result_error_exclusivity (env : GradingEnv) :
    (∀ events : List Event, ∀ t ∈ runTrace env events initialState, storeOK t.files)
    ∧ (∀ (id : String) (st : FileStatus) (r : Option GradingResult)
        (e : Option String) (files : List HomeworkFile),
        updateFileStatus id st r e files
          = files.map (fun f =>
              if f.id = id then { f with status := st, result := r, errorMessage := e }
              else f))
    ∧ (∀ (id : String) (files : List HomeworkFile),
        updateFileStatus id FileStatus.processing none none files
          = files.map (fun f =>
              if f.id = id then
                { f with
                    status := FileStatus.processing
                    result := none
                    errorMessage := none }
              else f)) := by
  refine ⟨?_, fun id st r e files => rfl, fun id files => rfl⟩
  intro events t ht
  exact storeOK_runTrace env events initialState (fun f hf => nomatch hf) t ht

/-- Witness for C3: the state reached by adding one input from the
empty session is in the trace and satisfies the exclusivity
discipline. -/
theorem result_error_exclusivity_example :
    ({ files := [plainFile "x" "a.txt" FileStatus.pending],
       isGrading := false, nextId := 1 } : AppState)
        ∈ runTrace dupEnv [Event.add [inputA]] initialState
    ∧ storeOK ([plainFile "x" "a.txt" FileStatus.pending] : List HomeworkFile) := by
  constructor
  · decide
  · exact (result_error_exclusivity dupEnv).1 [Event.add [inputA]]
      { files := [plainFile "x" "a.txt" FileStatus.pending],
        isGrading := false, nextId := 1 } (by decide)

/-- C4: The global isGrading flag is true on every state of a batch run
except the last, whose flag is false and whose collection is the final
one in which every call-time-eligible item has reached Completed or
Error; the session starts with the flag false, no non-batch operation
(add, remove, regrade) ever reads or writes the flag, and the end state
of a batch event is exactly the last trace state. -/
theorem isGrading_spans_batch (env : GradingEnv)
    (grade : HomeworkFile → Except String GradingResult) (s : AppState)
    (hnd : (s.files.map (fun f => f.id)).Nodup) :
    (∀ t ∈ (batchTrace grade s).dropLast, t.isGrading = true)
    ∧ (batchTrace grade s).getLast?
        = some { s with files := startBatchGrading grade s.files, isGrading := false }
    ∧ (∀ x ∈ s.files, x.status = FileStatus.pending ∨ x.status = FileStatus.error →
        ∃ y ∈ startBatchGrading grade s.files, y.id = x.id ∧
          (y.status = FileStatus.completed ∨ y.status = FileStatus.error))
    ∧ initialState.isGrading = false
    ∧ (∀ (e : Event) (s2 : AppState), e.isBatch = false →
        (applyEvent env e s2).isGrading = s2.isGrading
        ∧ ∀ t ∈ eventStates env e s2, t.isGrading = s2.isGrading)
    ∧ applyEvent env (Event.batch grade) s
        = { s with files := startBatchGrading grade s.files, isGrading := false } := by
  refine ⟨?_, ?_, ?_, rfl, ?_, rfl⟩
  · unfold batchTrace
    rw [List.dropLast_concat]
    intro t ht
    rcases List.mem_cons.mp ht with h1 | h2
    · subst h1; rfl
    · rcases List.mem_map.mp h2 with ⟨l, _, hteq⟩
      subst hteq; rfl
  · unfold batchTrace
    rw [List.getLast?_concat]
  · intro x hx he
    rw [batch_eq_map grade s.files hnd]
    have hng : needsGrading x = true := decide_eq_true he
    refine ⟨resolveFile (grade x) x, ?_, resolveFile_id (grade x) x, ?_⟩
    · exact List.mem_map.mpr ⟨x, hx, by rw [if_pos hng]⟩
    · cases grade x with
      | ok r => exact Or.inl rfl
      | error m => exact Or.inr rfl
  · intro e s2 hne
    cases e with
    | add inputs =>
      exact ⟨rfl, by
        intro t ht
        rcases List.mem_cons.mp ht with h1 | h2
        · subst h1; rfl
        · cases h2⟩
    | remove id =>
      exact ⟨rfl, by
        intro t ht
        rcases List.mem_cons.mp ht with h1 | h2
        · subst h1; rfl
        · cases h2⟩
    | batch grade2 => cases hne
    | regrade id grade2 =>
      refine ⟨rfl, ?_⟩
      intro t ht
      unfold eventStates at ht
      dsimp only at ht
      cases hfind : s2.files.find? (fun f => decide (f.id = id)) with
      | none => rw [hfind] at ht; cases ht
      | some file =>
        rw [hfind] at ht
        dsimp only at ht
        rcases List.mem_cons.mp ht with h1 | h2
        · subst h1; rfl
        · rcases List.mem_cons.mp h2 with h3 | h4
          · subst h3; rfl
          · cases h4

/-- Witness for C4: on a one-item store, every non-final trace state of
the batch has the flag on, and the final trace state has the flag off
with the item completed. -/
theorem isGrading_spans_batch_example :
    (([plainFile "a" "a.txt" FileStatus.pending].map (fun f => f.id)).Nodup
      ∧ (batchTrace gradeOk
          { files := [plainFile "a" "a.txt" FileStatus.pending],
            isGrading := false, nextId := 1 }).getLast?
        = some { files := (startBatchGrading gradeOk
                    [plainFile "a" "a.txt" FileStatus.pending]),
                 isGrading := false, nextId := 1 }) := by
  constructor
  · decide
  · exact (isGrading_spans_batch dupEnv gradeOk
      { files := [plainFile "a" "a.txt" FileStatus.pending],
        isGrading := false, nextId := 1 } (by decide)).2.1

/-- C5: For every sequence of addItems calls, the store afterwards is
the initial collection followed by exactly one item per non-hidden input
across all calls, in order: the final collection is the old one with the
expected build appended, its length is the old length plus the number of
non-hidden inputs, the appended items carry the input names in input
order (call order preserved, order within a call preserved), and every
appended item is Pending with neither result nor errorMessage set. -/
theorem addItems_append_pending (env : GradingEnv) (calls : List (List InputFile))
    (fs0 : List HomeworkFile) (n0 : Nat) :
    (runAdds env calls (fs0, n0)).1 = fs0 ++ buildCalls env n0 calls
    ∧ (runAdds env calls (fs0, n0)).1.length
        = fs0.length + (calls.map (fun c => (c.filter (fun f => !(isHidden f))).length)).sum
    ∧ (buildCalls env n0 calls).map (fun f => f.name)
        = (calls.map (fun c =>
            (c.filter (fun f => !(isHidden f))).map (fun f => f.name))).flatten
    ∧ ∀ f ∈ buildCalls env n0 calls,
        f.status = FileStatus.pending ∧ f.result = none ∧ f.errorMessage = none := by
  refine ⟨?_, ?_, buildCalls_names env n0 calls, buildCalls_props env n0 calls⟩
  · rw [runAdds_eq]
  · rw [runAdds_eq]
    dsimp only
    rw [List.length_append, buildCalls_length]

/-- Witness for C5: two calls, one with a hidden file, from an empty
store: the final store holds two items named a.txt and b.txt, both
Pending. -/
theorem addItems_append_pending_example :
    (runAdds dupEnv [[inputA, { name := ".git", type := "", size := 0, content := "" }],
        [inputB]] ([], 0)).1.length = 2
    ∧ (buildCalls dupEnv 0 [[inputA, { name := ".git", type := "", size := 0, content := "" }],
        [inputB]]).map (fun f => f.name) = ["a.txt", "b.txt"]
    ∧ ∀ f ∈ buildCalls dupEnv 0 [[inputA, { name := ".git", type := "", size := 0, content := "" }],
        [inputB]], f.status = FileStatus.pending ∧ f.result = none ∧ f.errorMessage = none := by
  have h := addItems_append_pending dupEnv
    [[inputA, { name := ".git", type := "", size := 0, content := "" }], [inputB]] [] 0
  refine ⟨?_, ?_, h.2.2.2⟩
  · rw [h.2.1]; decide
  · rw [h.2.2.1]; decide

/-- C6 counterexample: with an extraction collaborator that raises, the
fault propagates out of addItems as the raised error: the call evaluates
to that error, so no item is created for the input and the store is
never updated, contradicting the claim that the fault does not propagate
and the item is still created. -/
theorem addItems_extraction_fault_propagates :
    addFilesE badB64 okText (fun _ => "id0") 0 [inputA] [] = Except.error "boom" := rfl

/-- C6 as amended: addItems itself installs no handler, so
non-propagation holds exactly under the collaborator contract of spec
section 6 (extraction never throws and signals failure by an absent
value): with such collaborators the call always resolves, the resolved
collection appends one item per non-hidden input even when both
extracted fields are absent, and all remaining inputs are processed. -/
theorem addItems_total_extraction_ok (env : GradingEnv) (start : Nat)
    (newFiles : List InputFile) (files : List HomeworkFile) :
    addFilesE (fun f => Except.ok (env.toB64 f)) (fun f => Except.ok (env.toText f))
        env.gen start newFiles files
      = Except.ok (addFiles env start newFiles files)
    ∧ (addFiles env start newFiles files).1
        = files ++ buildFiles env start (newFiles.filter (fun f => !(isHidden f)))
    ∧ (addFiles env start newFiles files).1.length
        = files.length + (newFiles.filter (fun f => !(isHidden f))).length := by
  refine ⟨addFilesE_ok env start newFiles files, rfl, ?_⟩
  show (files ++ buildFiles env start (newFiles.filter (fun f => !(isHidden f)))).length = _
  rw [List.length_append, buildFiles_length]

/-- C7 counterexample: patching only the provider through the settings
mutator leaves the model name unchanged and invalid for the new
provider: from the default settings, updateSettings with provider Custom
keeps modelName gemini-2.5-flash, which no Custom entry of
AVAILABLE_MODELS carries, so the reset is not enforced by the mutator. -/
theorem updateSettings_no_modelName_reset :
    (updateSettings { modelProvider := some ModelProvider.custom }
        (DEFAULT_SETTINGS "")).modelProvider = ModelProvider.custom
    ∧ (updateSettings { modelProvider := some ModelProvider.custom }
        (DEFAULT_SETTINGS "")).modelName = "gemini-2.5-flash"
    ∧ isValidModel ModelProvider.custom
        (updateSettings { modelProvider := some ModelProvider.custom }
            (DEFAULT_SETTINGS "")).modelName = false := by
  refine ⟨rfl, rfl, ?_⟩
  decide

/-- C7 as amended: updateSettings is a pure shallow merge that performs
no reset of its own; the modelName reset on a provider change is
enforced by the provider-change handler of the presentation layer
(handleProviderChange), which bundles into one patch the new provider
and the first model of that provider, so after a provider change through
that handler the model name is always valid for the new provider. -/
theorem providerChange_resets_modelName (provider : ModelProvider) (s : AppSettings) :
    (handleProviderChange provider s).modelProvider = provider
    ∧ isValidModel provider (handleProviderChange provider s).modelName = true
    ∧ ∀ (patch : SettingsPatch) (s2 : AppSettings),
        updateSettings patch s2
          = { apiKey := patch.apiKey.getD s2.apiKey
              modelProvider := patch.modelProvider.getD s2.modelProvider
              customBaseUrl := patch.customBaseUrl.getD s2.customBaseUrl
              modelName := patch.modelName.getD s2.modelName } := by
  refine ⟨?_, ?_, fun patch s2 => rfl⟩
  · cases provider <;> rfl
  · cases provider <;> rfl

/-- C8 counterexample: the id generator is an external random stream
with no freshness guarantee; with a stream that repeats a draw, one
addItems call from the empty session creates two items with the same id,
so the store ids are not pairwise distinct. -/
theorem ids_can_collide :
    ¬ (((runEvents dupEnv [Event.add [inputA, inputB]] initialState).files.map
        (fun f => f.id)).Nodup) := by
  decide

/-- C8 as amended: every item created by addItems receives the next
draw of the session id generator, so whenever the generator never
repeats a draw (as an injective stream), all items in the store have
pairwise-distinct ids after every store mutation of every program run
from the empty session; the code draws from
Math.random().toString(36).substr(2, 9), which does not guarantee
distinct draws, so the unconditional claim fails. -/
theorem ids_nodup_of_injective_gen (env : GradingEnv) (events : List Event)
    (hGen : Function.Injective env.gen) :
    (∀ t ∈ runTrace env events initialState, (t.files.map (fun f => f.id)).Nodup)
    ∧ ((runEvents env events initialState).files.map (fun f => f.id)).Nodup := by
  have h := idsOK_runTrace env hGen events initialState
    ⟨List.nodup_nil, fun f hf => nomatch hf⟩
  exact ⟨h.1, h.2.1⟩

/-- Witness for C8 as amended: with the injective length-encoding
generator, adding two inputs from the empty session yields a store with
pairwise-distinct ids. -/
theorem ids_nodup_of_injective_gen_example :
    ((runEvents injEnv [Event.add [inputA, inputB]] initialState).files.map
        (fun f => f.id)).Nodup :=
  (ids_nodup_of_injective_gen injEnv [Event.add [inputA, inputB]] aGen_injective).2

/-- C9: Unknown-id operations are no-ops, not faults: when no item
carries the given id, removeItem, setStatus (for every status, result
and error argument) and regradeOne each return the collection unchanged;
and removing the same id twice equals removing it once, because after
the first removal the id is gone. -/
theorem unknown_id_noops (files : List HomeworkFile) (id : String)
    (grade : HomeworkFile → Except String GradingResult) :
    ((∀ f ∈ files, f.id ≠ id) →
      removeFile id files = files
      ∧ (∀ (st : FileStatus) (r : Option GradingResult) (e : Option String),
          updateFileStatus id st r e files = files)
      ∧ reGradeFile grade id files = files)
    ∧ removeFile id (removeFile id files) = removeFile id files := by
  constructor
  · intro h
    refine ⟨?_, ?_, ?_⟩
    · exact List.filter_eq_self.mpr (fun f hf => decide_eq_true (h f hf))
    · intro st r e
      apply map_fix_self
      intro f hf
      rw [if_neg (h f hf)]
    · have hfind : files.find? (fun f => decide (f.id = id)) = none := by
        apply List.find?_eq_none.mpr
        intro f hf
        simp [h f hf]
      unfold reGradeFile
      rw [hfind]
  · apply List.filter_eq_self.mpr
    intro f hf
    exact (List.mem_filter.mp hf).2

/-- Witness for C9: on a two-item store with no item of id zzz, remove,
setStatus and regrade leave the store unchanged, and a double removal of
id p equals a single one. -/
theorem unknown_id_noops_example :
    (∀ f ∈ filesPC, f.id ≠ "zzz")
    ∧ removeFile "zzz" filesPC = filesPC
    ∧ reGradeFile gradeOk "zzz" filesPC = filesPC
    ∧ removeFile "p" (removeFile "p" filesPC) = removeFile "p" filesPC := by
  have h := unknown_id_noops filesPC "zzz" gradeOk
  have hids : ∀ f ∈ filesPC, f.id ≠ "zzz" := by decide
  exact ⟨hids, (h.1 hids).1, (h.1 hids).2.2,
    (unknown_id_noops filesPC "p" gradeOk).2⟩

/-- C10: regradeOne imposes no precondition on the status of its target:
for any item x present in a store with pairwise-distinct ids, whatever
the status of x (Pending, Processing, Completed or Error), the call
first puts x in Processing (clearing result and error) and then resolves
the store so that x alone is replaced by the outcome of its own grading
call: Completed with the result on success, Error with the message on
failure, all other items unchanged. -/
theorem regrade_any_status (grade : HomeworkFile → Except String GradingResult)
    (files : List HomeworkFile) (x : HomeworkFile)
    (hnd : (files.map (fun f => f.id)).Nodup) (hx : x ∈ files) :
    reGradeFile grade x.id files = files.map (batchStep grade x)
    ∧ updateFileStatus x.id FileStatus.processing none none files
        = files.map (fun y =>
            if y.id = x.id then
              { y with
                  status := FileStatus.processing
                  result := none
                  errorMessage := none }
            else y)
    ∧ (∃ y ∈ reGradeFile grade x.id files, y.id = x.id ∧ y = resolveFile (grade x) x)
    ∧ (∀ r, grade x = Except.ok r →
        (resolveFile (grade x) x).status = FileStatus.completed
        ∧ (resolveFile (grade x) x).result = some r
        ∧ (resolveFile (grade x) x).errorMessage = none)
    ∧ (∀ m, grade x = Except.error m →
        (resolveFile (grade x) x).status = FileStatus.error
        ∧ (resolveFile (grade x) x).result = none
        ∧ (resolveFile (grade x) x).errorMessage = some m)
    ∧ (∀ y ∈ files, y.id ≠ x.id → batchStep grade x y = y) := by
  have hfind := find?_of_nodup files x hnd hx
  have h1 : reGradeFile grade x.id files = processOne grade x files :=
    reGradeFile_eq_processOne grade files x hfind
  refine ⟨?_, rfl, ?_, ?_, ?_, ?_⟩
  · rw [h1, processOne_eq_map]
  · rw [h1, processOne_eq_map]
    refine ⟨batchStep grade x x, List.mem_map_of_mem _ hx, batchStep_id grade x x, ?_⟩
    unfold batchStep
    rw [if_pos rfl]
  · intro r hr
    rw [hr]
    exact ⟨rfl, rfl, rfl⟩
  · intro m hm
    rw [hm]
    exact ⟨rfl, rfl, rfl⟩
  · intro y _ hy
    unfold batchStep
    rw [if_neg hy]

/-- Witness for C10: regrading an item that is already Processing (an
edge absent from the spec diagram) succeeds and completes it, leaving
the other item untouched. -/
theorem regrade_any_status_example :
    (([plainFile "q" "q.txt" FileStatus.processing,
        plainFile "r" "r.txt" FileStatus.pending].map (fun f => f.id)).Nodup
      ∧ plainFile "q" "q.txt" FileStatus.processing
          ∈ [plainFile "q" "q.txt" FileStatus.processing,
             plainFile "r" "r.txt" FileStatus.pending])
    ∧ (reGradeFile gradeOk "q"
        [plainFile "q" "q.txt" FileStatus.processing,
         plainFile "r" "r.txt" FileStatus.pending]).map (fun f => f.status)
      = [FileStatus.completed, FileStatus.pending] := by
  have h := regrade_any_status gradeOk
    [plainFile "q" "q.txt" FileStatus.processing,
     plainFile "r" "r.txt" FileStatus.pending]
    (plainFile "q" "q.txt" FileStatus.processing) (by decide) (by decide)
  refine ⟨⟨by decide, by decide⟩, ?_⟩
  have h2 := h.1
  rw [show (plainFile "q" "q.txt" FileStatus.processing).id = "q" from rfl] at h2
  rw [h2]
  decide
